import Mathlib

/-!
Verification of the frame-synchronous video detection pipeline in
`examples/yolov8/cpp/video.cc`.

The development shallowly embeds the pipeline:

* The Coordinate Mapper (the scale / truncate / clamp computation on
  detection boxes inside the per-frame loop) is embedded as pure functions
  over `ℤ` boxes and exact rational scale factors; the C `(int)` cast is
  truncation toward zero (`cTrunc`).
* The Pipeline Driver's loop (`main`'s `while (true)` body together with its
  initialization tail and cleanup tail) is embedded as a function from a run
  configuration to the ordered trace of observable events it performs, paired
  with the process exit code.  Wall-clock timing (the FPS value) and pixel
  contents are not modelled; every other observable step of the loop is an
  event in the trace.
-/

/-- A detection bounding box in model input space: the `image_rect_t box`
field of `object_detect_result` (integer `left`, `top`, `right`, `bottom`). -/
structure Box where
  left : ℤ
  top : ℤ
  right : ℤ
  bottom : ℤ
  deriving DecidableEq

/-- One entry of `object_detect_result_list`: class id `cls_id`, box in model
input space, and confidence `prop` (a C `float`, embedded as an exact `ℚ`). -/
structure Detection where
  cls : ℤ
  box : Box
  prop : ℚ
  deriving DecidableEq

/-- A box after mapping into frame space: the `x1,y1,x2,y2` integers computed
in the drawing loop of `video.cc`. -/
structure ScaledBox where
  x1 : ℤ
  y1 : ℤ
  x2 : ℤ
  y2 : ℤ
  deriving DecidableEq

/-- The C `(int)` cast applied to a nonnegative-or-negative rational product:
truncation toward zero. -/
def cTrunc (q : ℚ) : ℤ := if 0 ≤ q then ⌊q⌋ else ⌈q⌉

/-- Clamping of one edge, `std::max(0, std::min(v, hi))`, as used in `video.cc`
(`hi` is `frame.cols - 1` or `frame.rows - 1`). -/
def clampEdge (hi v : ℤ) : ℤ := max 0 (min v hi)

/-- The scaling half of the mapping: each edge multiplied by its axis scale
and truncated by the `(int)` cast, before any clamping.
`x1 = (int)(det->box.left * scale_x)` and so on. -/
def scaleBox (b : Box) (sx sy : ℚ) : ScaledBox :=
  { x1 := cTrunc (b.left * sx)
    y1 := cTrunc (b.top * sy)
    x2 := cTrunc (b.right * sx)
    y2 := cTrunc (b.bottom * sy) }

/-- The clamping half of the mapping: x-edges clamped to `[0, fw-1]`,
y-edges to `[0, fh-1]`, each edge independently. -/
def clampBox (fw fh : ℤ) (s : ScaledBox) : ScaledBox :=
  { x1 := clampEdge (fw - 1) s.x1
    y1 := clampEdge (fh - 1) s.y1
    x2 := clampEdge (fw - 1) s.x2
    y2 := clampEdge (fh - 1) s.y2 }

/-- The full Coordinate Mapper of `video.cc`: scale and truncate each edge,
then clamp to the frame bounds. -/
def mapBox (b : Box) (sx sy : ℚ) (fw fh : ℤ) : ScaledBox :=
  clampBox fw fh (scaleBox b sx sy)

/-- A line of the per-detection report: the fields interpolated by
`printf("  %s @ (%d %d %d %d) %.3f\n", ...)`.  `prop3` is the confidence as
rendered with three decimals, kept as the integer of thousandths. -/
structure ReportLine where
  name : String
  left : ℤ
  top : ℤ
  right : ℤ
  bottom : ℤ
  prop3 : ℤ
  deriving DecidableEq

/-- Formatting with `%.3f`: round the confidence to the nearest thousandth (kept as an
integer number of thousandths). -/
def fmt3 (q : ℚ) : ℤ := round (1000 * q)

/-- Formatting with `%.1f` applied to `prop * 100`: the percentage in tenths. -/
def fmt1pct (q : ℚ) : ℤ := round (1000 * q)

/-- The observable events of one pipeline run, in program order. -/
inductive Ev where
  | warnNoSink
  | openSinkMsg
  | acquire (k : ℕ)
  | preprocess (k : ℕ)
  | infer (k : ℕ)
  | inferFail (k : ℕ) (ret : ℤ)
  | reportHeader (k : ℕ) (n : ℕ)
  | reportDet (k : ℕ) (line : ReportLine)
  | reportNone (k : ℕ)
  | mapDet (k : ℕ) (b : ScaledBox)
  | drawRect (k : ℕ) (b : ScaledBox)
  | drawLabel (k : ℕ) (name : String) (pct : ℤ)
  | fpsOverlay (k : ℕ)
  | sinkWrite (k : ℕ)
  | endOfStream (total : ℕ)
  | closeSink
  | releaseModel
  | releasePost
  | releaseCap
  deriving DecidableEq

/-- The per-frame outcome of the external Detector Adapter: the `ret` code of
`inference_yolov8_model` and, on success, the detection list it filled in. -/
structure FrameData where
  inferRet : ℤ
  dets : List Detection
  deriving DecidableEq

/-- The run configuration after successful initialization: fixed model input
dimensions, fixed source frame dimensions, the class-name table
(`coco_cls_to_name`, an external total lookup), whether the `VideoWriter`
opened, and the sequence of frames the source will deliver before
end-of-stream (each with its inference outcome). -/
structure RunConfig where
  mw : ℤ
  mh : ℤ
  fw : ℤ
  fh : ℤ
  names : ℤ → String
  sinkOpen : Bool
  frames : List FrameData

/-- The x scale `scale_x = (float)frame.cols / app_ctx.model_width`, exact. -/
def scaleX (cfg : RunConfig) : ℚ := (cfg.fw : ℚ) / (cfg.mw : ℚ)

/-- The y scale `scale_y = (float)frame.rows / app_ctx.model_height`, exact. -/
def scaleY (cfg : RunConfig) : ℚ := (cfg.fh : ℚ) / (cfg.mh : ℚ)

/-- The report line printed for one detection: class name from the lookup
table, the four *model-space* box edges unchanged, confidence to three
decimals. -/
def reportLine (names : ℤ → String) (d : Detection) : ReportLine :=
  { name := names d.cls
    left := d.box.left
    top := d.box.top
    right := d.box.right
    bottom := d.box.bottom
    prop3 := fmt3 d.prop }

/-- The Reporter's output for frame `k`: the header line, one line per
detection in detection-list order, and the explicit "no objects detected"
line exactly when the list is empty (mirroring the `for` loop followed by
the `if (od_results.count == 0)` in `video.cc`). -/
def reportEvents (names : ℤ → String) (k : ℕ) (dets : List Detection) : List Ev :=
  Ev.reportHeader k dets.length ::
    (dets.map (fun d => Ev.reportDet k (reportLine names d)) ++
      if dets.length = 0 then [Ev.reportNone k] else [])

/-- The mapped box of one detection under the run's fixed dimensions. -/
def mapped (cfg : RunConfig) (d : Detection) : ScaledBox :=
  mapBox d.box (scaleX cfg) (scaleY cfg) cfg.fw cfg.fh

/-- The drawing loop for frame `k`: per detection, in order, the coordinate
mapping, the rectangle at the mapped box, and the label text. -/
def drawEvents (cfg : RunConfig) (k : ℕ) : List Detection → List Ev
  | [] => []
  | d :: rest =>
      Ev.mapDet k (mapped cfg d) ::
      Ev.drawRect k (mapped cfg d) ::
      Ev.drawLabel k (cfg.names d.cls) (fmt1pct d.prop) ::
      drawEvents cfg k rest

/-- The loop body for the frame whose post-increment counter value is `k`:
acquire, preprocess (resize + `cvtColor` + buffer setup), the single
inference call; then either the failure message (after which the loop
breaks) or report, map/draw, FPS overlay, and the sink write if the writer
is open. -/
def frameBlock (cfg : RunConfig) (k : ℕ) (fd : FrameData) : List Ev :=
  [Ev.acquire k, Ev.preprocess k, Ev.infer k] ++
    (if fd.inferRet = 0 then
      reportEvents cfg.names k fd.dets ++ drawEvents cfg k fd.dets ++
        [Ev.fpsOverlay k] ++ (if cfg.sinkOpen then [Ev.sinkWrite k] else [])
    else [Ev.inferFail k fd.inferRet])

/-- The `while (true)` loop of `video.cc`, started with counter value `fc`:
an empty source frame ends the stream (printing the total); otherwise the
counter is incremented, the frame block runs, and the loop continues only
when inference succeeded. -/
def loopRun (cfg : RunConfig) (fc : ℕ) : List FrameData → List Ev
  | [] => [Ev.endOfStream fc]
  | fd :: rest =>
      frameBlock cfg (fc + 1) fd ++
        (if fd.inferRet = 0 then loopRun cfg (fc + 1) rest else [])

/-- The whole post-initialization run of `main`: the writer-open message or
the one-time warning, the loop from counter 0, then the unconditional
cleanup tail (`writer.release()` if open, `release_yolov8_model`,
`deinit_post_process`, `cap.release()`), and the exit code — `main` returns
0 on every path that reaches the loop. -/
def run (cfg : RunConfig) : List Ev × ℤ :=
  ((if cfg.sinkOpen then [Ev.openSinkMsg] else [Ev.warnNoSink]) ++
     loopRun cfg 0 cfg.frames ++
     ((if cfg.sinkOpen then [Ev.closeSink] else []) ++
       [Ev.releaseModel, Ev.releasePost, Ev.releaseCap]),
   0)

/-- The frame a loop event belongs to; `none` for events outside the loop
and for the end-of-stream message. -/
def evFrame : Ev → Option ℕ
  | Ev.acquire k => some k
  | Ev.preprocess k => some k
  | Ev.infer k => some k
  | Ev.inferFail k _ => some k
  | Ev.reportHeader k _ => some k
  | Ev.reportDet k _ => some k
  | Ev.reportNone k => some k
  | Ev.mapDet k _ => some k
  | Ev.drawRect k _ => some k
  | Ev.drawLabel k _ _ => some k
  | Ev.fpsOverlay k => some k
  | Ev.sinkWrite k => some k
  | _ => none

/-- Selects acquisition events together with their counter value. -/
def acquireIdx : Ev → Option ℕ
  | Ev.acquire k => some k
  | _ => none

/-- Holds exactly on Coordinate Mapper events. -/
def isMapEv : Ev → Bool
  | Ev.mapDet _ _ => true
  | _ => false

/-- Holds exactly on per-detection report lines. -/
def isReportDetEv : Ev → Bool
  | Ev.reportDet _ _ => true
  | _ => false

/-- Holds exactly on overlay rectangles. -/
def isDrawRectEv : Ev → Bool
  | Ev.drawRect _ _ => true
  | _ => false

/-- Holds exactly on "no objects detected" lines. -/
def isReportNoneEv : Ev → Bool
  | Ev.reportNone _ => true
  | _ => false

/-- All inference calls of the run succeeded. -/
def allSuccess (frames : List FrameData) : Prop := ∀ fd ∈ frames, fd.inferRet = 0

instance (frames : List FrameData) : Decidable (allSuccess frames) :=
  List.decidableBAll _ frames

/-- Concrete configuration used for witnesses: two frames, the first with one
detection, both inferences succeeding, writer open. -/
def cfgA : RunConfig :=
  ⟨640, 640, 1920, 1080, fun _ => "person", true,
    [⟨0, [⟨0, ⟨100, 100, 200, 200⟩, 1⟩]⟩, ⟨0, []⟩]⟩

/-- As `cfgA` but the `VideoWriter` failed to open. -/
def cfgNoSink : RunConfig :=
  ⟨640, 640, 1920, 1080, fun _ => "person", false,
    [⟨0, [⟨0, ⟨100, 100, 200, 200⟩, 1⟩]⟩, ⟨0, []⟩]⟩

/-- A run whose single frame fails inference with `ret = -1`. -/
def cfgFail : RunConfig :=
  ⟨640, 640, 1920, 1080, fun _ => "person", true, [⟨-1, []⟩]⟩

/- ------------------------------------------------------------------ -/
/- Helper lemmas about the embedded pipeline.                          -/
/- ------------------------------------------------------------------ -/

theorem reportEvents_shape {names : ℤ → String} {k : ℕ} {dets : List Detection} {e : Ev}
    (h : e ∈ reportEvents names k dets) :
    e = Ev.reportHeader k dets.length ∨
      (∃ d ∈ dets, e = Ev.reportDet k (reportLine names d)) ∨ e = Ev.reportNone k := by
  simp only [reportEvents, List.mem_cons, List.mem_append, List.mem_map] at h
  rcases h with rfl | h | h
  · exact Or.inl rfl
  · obtain ⟨d, hd, rfl⟩ := h
    exact Or.inr (Or.inl ⟨d, hd, rfl⟩)
  · by_cases h0 : dets.length = 0 <;> simp [h0] at h
    exact Or.inr (Or.inr h)

theorem drawEvents_shape {cfg : RunConfig} {k : ℕ} {dets : List Detection} {e : Ev}
    (h : e ∈ drawEvents cfg k dets) :
    ∃ d ∈ dets, e = Ev.mapDet k (mapped cfg d) ∨ e = Ev.drawRect k (mapped cfg d) ∨
      e = Ev.drawLabel k (cfg.names d.cls) (fmt1pct d.prop) := by
  induction dets with
  | nil => simp [drawEvents] at h
  | cons d rest ih =>
    simp only [drawEvents, List.mem_cons] at h
    rcases h with rfl | rfl | rfl | h
    · exact ⟨d, by simp, Or.inl rfl⟩
    · exact ⟨d, by simp, Or.inr (Or.inl rfl)⟩
    · exact ⟨d, by simp, Or.inr (Or.inr rfl)⟩
    · obtain ⟨d', hd', hcase⟩ := ih h
      exact ⟨d', by simp [hd'], hcase⟩

theorem evFrame_of_mem_frameBlock {cfg : RunConfig} {k : ℕ} {fd : FrameData} {e : Ev}
    (h : e ∈ frameBlock cfg k fd) : evFrame e = some k := by
  simp only [frameBlock, List.cons_append, List.nil_append, List.mem_cons] at h
  rcases h with rfl | rfl | rfl | h
  · rfl
  · rfl
  · rfl
  split at h
  · simp only [List.mem_append] at h
    rcases h with ((h | h) | h) | h
    · rcases reportEvents_shape h with rfl | ⟨d, _, rfl⟩ | rfl <;> rfl
    · obtain ⟨d, _, rfl | rfl | rfl⟩ := drawEvents_shape h <;> rfl
    · simp only [List.mem_singleton] at h
      subst h; rfl
    · split at h
      · simp only [List.mem_singleton] at h
        subst h; rfl
      · simp at h
  · simp only [List.mem_singleton] at h
    subst h; rfl

theorem mem_loopRun_cases {cfg : RunConfig} {fc : ℕ} {frames : List FrameData} {e : Ev}
    (h : e ∈ loopRun cfg fc frames) :
    (∃ j, evFrame e = some j ∧ fc < j ∧ j ≤ fc + frames.length) ∨
      ∃ n, e = Ev.endOfStream n := by
  induction frames generalizing fc with
  | nil =>
    simp only [loopRun, List.mem_singleton] at h
    exact Or.inr ⟨fc, h⟩
  | cons fd rest ih =>
    simp only [loopRun, List.mem_append] at h
    rcases h with h | h
    · exact Or.inl ⟨fc + 1, evFrame_of_mem_frameBlock h, by omega,
        by rw [List.length_cons]; omega⟩
    · split at h
      · rcases ih h with ⟨j, hj, h1, h2⟩ | hn
        · exact Or.inl ⟨j, hj, by omega, by rw [List.length_cons]; omega⟩
        · exact Or.inr hn
      · simp at h

theorem evFrame_bound_of_mem_loopRun {cfg : RunConfig} {fc j : ℕ} {frames : List FrameData}
    {e : Ev} (h : e ∈ loopRun cfg fc frames) (hj : evFrame e = some j) :
    fc < j ∧ j ≤ fc + frames.length := by
  rcases mem_loopRun_cases h with ⟨j', hj', h1, h2⟩ | ⟨n, rfl⟩
  · rw [hj] at hj'
    cases hj'
    exact ⟨h1, h2⟩
  · simp [evFrame] at hj

theorem acquireIdx_reportEvents (names : ℤ → String) (k : ℕ) (dets : List Detection) :
    (reportEvents names k dets).filterMap acquireIdx = [] := by
  rw [List.filterMap_eq_nil_iff]
  intro e he
  rcases reportEvents_shape he with rfl | ⟨d, _, rfl⟩ | rfl <;> rfl

theorem acquireIdx_drawEvents (cfg : RunConfig) (k : ℕ) (dets : List Detection) :
    (drawEvents cfg k dets).filterMap acquireIdx = [] := by
  rw [List.filterMap_eq_nil_iff]
  intro e he
  obtain ⟨d, _, rfl | rfl | rfl⟩ := drawEvents_shape he <;> rfl


theorem acquireIdx_frameBlock (cfg : RunConfig) (k : ℕ) (fd : FrameData) :
    (frameBlock cfg k fd).filterMap acquireIdx = [k] := by
  cases hs : cfg.sinkOpen <;> by_cases h0 : fd.inferRet = 0 <;>
    simp [frameBlock, h0, hs, acquireIdx, acquireIdx_reportEvents, acquireIdx_drawEvents,
      List.filterMap_append, List.filterMap_cons]

theorem acquireIdx_loopRun (cfg : RunConfig) (fc : ℕ) (frames : List FrameData)
    (h : allSuccess frames) :
    (loopRun cfg fc frames).filterMap acquireIdx = List.range' (fc + 1) frames.length := by
  induction frames generalizing fc with
  | nil => simp [loopRun, acquireIdx, List.filterMap_cons]
  | cons fd rest ih =>
    have h0 : fd.inferRet = 0 := h fd (by simp)
    have hr : allSuccess rest := fun g hg => h g (by simp [hg])
    show (frameBlock cfg (fc + 1) fd ++
        (if fd.inferRet = 0 then loopRun cfg (fc + 1) rest else [])).filterMap acquireIdx = _
    rw [if_pos h0, List.filterMap_append, acquireIdx_frameBlock, ih (fc + 1) hr,
      List.length_cons, List.range'_succ, List.singleton_append]

theorem filter_frame_frameBlock (cfg : RunConfig) (k : ℕ) (fd : FrameData) :
    (frameBlock cfg k fd).filter (fun e => decide (evFrame e = some k)) = frameBlock cfg k fd := by
  rw [List.filter_eq_self]
  intro e he
  simp [evFrame_of_mem_frameBlock he]

theorem filter_frame_frameBlock_ne (cfg : RunConfig) (k j : ℕ) (fd : FrameData)
    (hne : j ≠ k) :
    (frameBlock cfg k fd).filter (fun e => decide (evFrame e = some j)) = [] := by
  rw [List.filter_eq_nil_iff]
  intro e he
  simp only [evFrame_of_mem_frameBlock he, decide_eq_true_eq, Option.some.injEq,
    Bool.not_eq_true]
  exact fun hkj => hne hkj.symm

theorem filter_frame_loopRun_le (cfg : RunConfig) (fc k : ℕ) (frames : List FrameData)
    (hk : k ≤ fc) :
    (loopRun cfg fc frames).filter (fun e => decide (evFrame e = some k)) = [] := by
  rw [List.filter_eq_nil_iff]
  intro e he
  simp only [decide_eq_true_eq]
  intro hj
  have := evFrame_bound_of_mem_loopRun he hj
  omega

theorem filter_frame_loopRun (cfg : RunConfig) (fc i : ℕ) (frames : List FrameData)
    (fd : FrameData) (h : allSuccess frames) (h2 : frames[i]? = some fd) :
    (loopRun cfg fc frames).filter (fun e => decide (evFrame e = some (fc + i + 1))) =
      frameBlock cfg (fc + i + 1) fd := by
  induction frames generalizing fc i with
  | nil => simp at h2
  | cons fd' rest ih =>
    have h0 : fd'.inferRet = 0 := h fd' (by simp)
    have hr : allSuccess rest := fun g hg => h g (by simp [hg])
    show (frameBlock cfg (fc + 1) fd' ++
        (if fd'.inferRet = 0 then loopRun cfg (fc + 1) rest else [])).filter
        (fun e => decide (evFrame e = some (fc + i + 1))) = _
    rw [if_pos h0, List.filter_append]
    cases i with
    | zero =>
      simp only [List.getElem?_cons_zero, Option.some.injEq] at h2
      subst h2
      rw [filter_frame_frameBlock, filter_frame_loopRun_le cfg (fc + 1) (fc + 0 + 1) rest
        (by omega), List.append_nil]
    | succ i =>
      simp only [List.getElem?_cons_succ] at h2
      rw [filter_frame_frameBlock_ne cfg (fc + 1) (fc + (i + 1) + 1) fd' (by omega),
        List.nil_append]
      have harith : fc + (i + 1) + 1 = (fc + 1) + i + 1 := by omega
      rw [harith]
      exact ih (fc + 1) i hr h2

theorem endOfStream_mem_loopRun (cfg : RunConfig) (fc : ℕ) (frames : List FrameData)
    (h : allSuccess frames) :
    Ev.endOfStream (fc + frames.length) ∈ loopRun cfg fc frames := by
  induction frames generalizing fc with
  | nil => simp [loopRun]
  | cons fd rest ih =>
    have h0 : fd.inferRet = 0 := h fd (by simp)
    have hr : allSuccess rest := fun g hg => h g (by simp [hg])
    show Ev.endOfStream (fc + (fd :: rest).length) ∈
      frameBlock cfg (fc + 1) fd ++ (if fd.inferRet = 0 then loopRun cfg (fc + 1) rest else [])
    rw [if_pos h0, List.mem_append]
    right
    have harith : fc + (fd :: rest).length = (fc + 1) + rest.length := by
      rw [List.length_cons]; omega
    rw [harith]
    exact ih (fc + 1) hr

theorem loopRun_cut (cfg : RunConfig) (fc : ℕ) (good : List FrameData) (fd : FrameData)
    (rest : List FrameData) (hg : ∀ g ∈ good, g.inferRet = 0) (hb : fd.inferRet ≠ 0) :
    loopRun cfg fc (good ++ fd :: rest) = loopRun cfg fc (good ++ [fd]) := by
  induction good generalizing fc with
  | nil =>
    show frameBlock cfg (fc + 1) fd ++ (if fd.inferRet = 0 then loopRun cfg (fc + 1) rest else [])
      = frameBlock cfg (fc + 1) fd ++ (if fd.inferRet = 0 then loopRun cfg (fc + 1) [] else [])
    rw [if_neg hb, if_neg hb]
  | cons g good' ih =>
    have h0 : g.inferRet = 0 := hg g (by simp)
    have hg' : ∀ x ∈ good', x.inferRet = 0 := fun x hx => hg x (by simp [hx])
    show frameBlock cfg (fc + 1) g ++
        (if g.inferRet = 0 then loopRun cfg (fc + 1) (good' ++ fd :: rest) else []) =
      frameBlock cfg (fc + 1) g ++
        (if g.inferRet = 0 then loopRun cfg (fc + 1) (good' ++ [fd]) else [])
    rw [if_pos h0, if_pos h0, ih (fc + 1) hg']

theorem inferFail_mem_loopRun (cfg : RunConfig) (fc : ℕ) (good : List FrameData)
    (fd : FrameData) (hg : ∀ g ∈ good, g.inferRet = 0) (hb : fd.inferRet ≠ 0) :
    Ev.inferFail (fc + good.length + 1) fd.inferRet ∈ loopRun cfg fc (good ++ [fd]) := by
  induction good generalizing fc with
  | nil =>
    show Ev.inferFail (fc + [].length + 1) fd.inferRet ∈
      frameBlock cfg (fc + 1) fd ++ (if fd.inferRet = 0 then loopRun cfg (fc + 1) [] else [])
    rw [if_neg hb, List.append_nil, List.length_nil]
    simp [frameBlock, if_neg hb]
  | cons g good' ih =>
    have h0 : g.inferRet = 0 := hg g (by simp)
    have hg' : ∀ x ∈ good', x.inferRet = 0 := fun x hx => hg x (by simp [hx])
    show Ev.inferFail (fc + (g :: good').length + 1) fd.inferRet ∈
      frameBlock cfg (fc + 1) g ++
        (if g.inferRet = 0 then loopRun cfg (fc + 1) (good' ++ [fd]) else [])
    rw [if_pos h0, List.mem_append]
    right
    have harith : fc + (g :: good').length + 1 = (fc + 1) + good'.length + 1 := by
      rw [List.length_cons]; omega
    rw [harith]
    exact ih (fc + 1) hg'

theorem mem_of_getElem?_eq {α : Type} {l : List α} {n : ℕ} {a : α}
    (h : l[n]? = some a) : a ∈ l := by
  obtain ⟨hlt, rfl⟩ := List.getElem?_eq_some.mp h
  exact List.getElem_mem hlt

theorem filter_frame_run (cfg : RunConfig) (h : allSuccess cfg.frames) (k : ℕ)
    (fd : FrameData) (hk : cfg.frames[k - 1]? = some fd) (h1 : 1 ≤ k) :
    (run cfg).1.filter (fun e => decide (evFrame e = some k)) = frameBlock cfg k fd := by
  have hmain := filter_frame_loopRun cfg 0 (k - 1) cfg.frames fd h hk
  have harith : 0 + (k - 1) + 1 = k := by omega
  rw [harith] at hmain
  have hinit : (if cfg.sinkOpen then [Ev.openSinkMsg] else [Ev.warnNoSink]).filter
      (fun e => decide (evFrame e = some k)) = ([] : List Ev) := by
    cases cfg.sinkOpen <;> rfl
  have hclean : ((if cfg.sinkOpen then [Ev.closeSink] else []) ++
      [Ev.releaseModel, Ev.releasePost, Ev.releaseCap]).filter
      (fun e => decide (evFrame e = some k)) = ([] : List Ev) := by
    cases cfg.sinkOpen <;> rfl
  show ((if cfg.sinkOpen then [Ev.openSinkMsg] else [Ev.warnNoSink]) ++
      loopRun cfg 0 cfg.frames ++
      ((if cfg.sinkOpen then [Ev.closeSink] else []) ++
        [Ev.releaseModel, Ev.releasePost, Ev.releaseCap])).filter
      (fun e => decide (evFrame e = some k)) = frameBlock cfg k fd
  rw [List.filter_append, List.filter_append, hinit, hclean, hmain, List.nil_append,
    List.append_nil]

theorem filterMap_acquireIdx_run (cfg : RunConfig) (h : allSuccess cfg.frames) :
    (run cfg).1.filterMap acquireIdx = List.range' 1 cfg.frames.length := by
  have hmain := acquireIdx_loopRun cfg 0 cfg.frames h
  rw [Nat.zero_add] at hmain
  cases hs : cfg.sinkOpen <;>
    simp [run, hs, List.filterMap_append, List.filterMap_cons, hmain, acquireIdx]

theorem endOfStream_mem_run (cfg : RunConfig) (h : allSuccess cfg.frames) :
    Ev.endOfStream cfg.frames.length ∈ (run cfg).1 := by
  have hmain := endOfStream_mem_loopRun cfg 0 cfg.frames h
  rw [Nat.zero_add] at hmain
  cases hs : cfg.sinkOpen <;> simp [run, hs, List.mem_append, hmain]

/- ------------------------------------------------------------------ -/
/- Claim theorems.                                                     -/
/- ------------------------------------------------------------------ -/

/-- C2: the Coordinate Mapper computes the per-frame axis scales, multiplies
each of the four box edges by its axis scale, truncates to an integer, and
clamps afterwards (never before); concretely, box (100,100,200,200) under
frame 1920x1080 and model input 640x640 scales to (300,168,600,337), and the
subsequent clamping leaves it unchanged. -/
theorem c2_coordinate_mapping :
    (∀ (b : Box) (sx sy : ℚ) (fw fh : ℤ),
      mapBox b sx sy fw fh = clampBox fw fh (scaleBox b sx sy)) ∧
    scaleBox ⟨100, 100, 200, 200⟩ ((1920 : ℚ) / 640) ((1080 : ℚ) / 640) =
      ⟨300, 168, 600, 337⟩ ∧
    mapBox ⟨100, 100, 200, 200⟩ ((1920 : ℚ) / 640) ((1080 : ℚ) / 640) 1920 1080 =
      ⟨300, 168, 600, 337⟩ := by
  refine ⟨fun b sx sy fw fh => rfl, ?_, ?_⟩
  · simp only [scaleBox, ScaledBox.mk.injEq]
    norm_num [cTrunc]
  · simp only [mapBox, scaleBox, clampBox, clampEdge, ScaledBox.mk.injEq]
    norm_num [cTrunc]

/-- C8: a detection box spanning the whole model input extent
(0,0,model_w,model_h) maps to (0,0,frame_w-1,frame_h-1) exactly, for
positive dimensions. -/
theorem c8_full_extent (mw mh fw fh : ℤ) (hmw : 0 < mw) (hmh : 0 < mh)
    (hfw : 0 < fw) (hfh : 0 < fh) :
    mapBox ⟨0, 0, mw, mh⟩ ((fw : ℚ) / (mw : ℚ)) ((fh : ℚ) / (mh : ℚ)) fw fh =
      ⟨0, 0, fw - 1, fh - 1⟩ := by
  have hmw' : (mw : ℚ) ≠ 0 := Int.cast_ne_zero.mpr hmw.ne'
  have hmh' : (mh : ℚ) ≠ 0 := Int.cast_ne_zero.mpr hmh.ne'
  have hx : cTrunc ((mw : ℚ) * ((fw : ℚ) / (mw : ℚ))) = fw := by
    rw [mul_comm, div_mul_cancel₀ _ hmw', cTrunc, if_pos (by exact_mod_cast hfw.le),
      Int.floor_intCast]
  have hy : cTrunc ((mh : ℚ) * ((fh : ℚ) / (mh : ℚ))) = fh := by
    rw [mul_comm, div_mul_cancel₀ _ hmh', cTrunc, if_pos (by exact_mod_cast hfh.le),
      Int.floor_intCast]
  have h0x : cTrunc (((0 : ℤ) : ℚ) * ((fw : ℚ) / (mw : ℚ))) = 0 := by
    norm_num [cTrunc]
  have h0y : cTrunc (((0 : ℤ) : ℚ) * ((fh : ℚ) / (mh : ℚ))) = 0 := by
    norm_num [cTrunc]
  simp only [mapBox, scaleBox, clampBox, clampEdge, h0x, h0y, hx, hy, ScaledBox.mk.injEq]
  refine ⟨?_, ?_, ?_, ?_⟩ <;> omega

/-- C9: the clamp step of the Coordinate Mapper is idempotent: clamping a
scaled box twice to the same frame bounds equals clamping it once. -/
theorem c9_clamp_idempotent (fw fh : ℤ) (s : ScaledBox) :
    clampBox fw fh (clampBox fw fh s) = clampBox fw fh s := by
  simp only [clampBox, clampEdge, ScaledBox.mk.injEq]
  refine ⟨?_, ?_, ?_, ?_⟩ <;> omega

theorem cTrunc_mono {a b : ℚ} (h : a ≤ b) : cTrunc a ≤ cTrunc b := by
  unfold cTrunc
  by_cases ha : 0 ≤ a
  · rw [if_pos ha, if_pos (ha.trans h)]
    exact Int.floor_le_floor h
  · by_cases hb : 0 ≤ b
    · rw [if_neg ha, if_pos hb]
      have h1 : ⌈a⌉ ≤ 0 := Int.ceil_le.mpr (by exact_mod_cast le_of_not_le ha)
      have h2 : 0 ≤ ⌊b⌋ := Int.le_floor.mpr (by exact_mod_cast hb)
      omega
    · rw [if_neg ha, if_neg hb]
      exact Int.ceil_le_ceil h

/-- C10: the Coordinate Mapper preserves edge ordering: an ordered model-space
box stays ordered after scaling by positive factors, truncation, and
clamping. -/
theorem c10_order_preserved (b : Box) (sx sy : ℚ) (fw fh : ℤ)
    (hlr : b.left ≤ b.right) (htb : b.top ≤ b.bottom) (hsx : 0 < sx) (hsy : 0 < sy)
    (hfw : 1 ≤ fw) (hfh : 1 ≤ fh) :
    (mapBox b sx sy fw fh).x1 ≤ (mapBox b sx sy fw fh).x2 ∧
      (mapBox b sx sy fw fh).y1 ≤ (mapBox b sx sy fw fh).y2 := by
  have hx : cTrunc ((b.left : ℚ) * sx) ≤ cTrunc ((b.right : ℚ) * sx) :=
    cTrunc_mono (mul_le_mul_of_nonneg_right (by exact_mod_cast hlr) hsx.le)
  have hy : cTrunc ((b.top : ℚ) * sy) ≤ cTrunc ((b.bottom : ℚ) * sy) :=
    cTrunc_mono (mul_le_mul_of_nonneg_right (by exact_mod_cast htb) hsy.le)
  constructor <;> simp only [mapBox, scaleBox, clampBox, clampEdge] <;> omega

/-- C10 witness: the theorem applied at box (100,100,200,200), scales 3 and 2,
frame 1920x1080. -/
theorem c10_order_preserved_witness :
    ((⟨100, 100, 200, 200⟩ : Box).left ≤ (⟨100, 100, 200, 200⟩ : Box).right ∧
      (⟨100, 100, 200, 200⟩ : Box).top ≤ (⟨100, 100, 200, 200⟩ : Box).bottom ∧
      (0 : ℚ) < 3 ∧ (0 : ℚ) < 2 ∧ (1 : ℤ) ≤ 1920 ∧ (1 : ℤ) ≤ 1080) ∧
    ((mapBox ⟨100, 100, 200, 200⟩ 3 2 1920 1080).x1 ≤
        (mapBox ⟨100, 100, 200, 200⟩ 3 2 1920 1080).x2 ∧
      (mapBox ⟨100, 100, 200, 200⟩ 3 2 1920 1080).y1 ≤
        (mapBox ⟨100, 100, 200, 200⟩ 3 2 1920 1080).y2) :=
  ⟨⟨by decide, by decide, by decide, by decide, by decide, by decide⟩,
    c10_order_preserved ⟨100, 100, 200, 200⟩ 3 2 1920 1080 (by decide) (by decide)
      (by decide) (by decide) (by decide) (by decide)⟩

/-- C8 witness: the theorem applied at model input 640x640 and frame
1920x1080. -/
theorem c8_full_extent_witness :
    ((0 : ℤ) < 640 ∧ (0 : ℤ) < 1920 ∧ (0 : ℤ) < 1080) ∧
    mapBox ⟨0, 0, 640, 640⟩ (((1920 : ℤ) : ℚ) / ((640 : ℤ) : ℚ))
        (((1080 : ℤ) : ℚ) / ((640 : ℤ) : ℚ)) 1920 1080 = ⟨0, 0, 1920 - 1, 1080 - 1⟩ :=
  ⟨⟨by decide, by decide, by decide⟩,
    c8_full_extent 640 640 1920 1080 (by decide) (by decide) (by decide) (by decide)⟩

theorem warnNoSink_not_mem_loopRun (cfg : RunConfig) (fc : ℕ) (frames : List FrameData) :
    Ev.warnNoSink ∉ loopRun cfg fc frames := by
  intro hmem
  rcases mem_loopRun_cases hmem with ⟨j, hj, _, _⟩ | ⟨n, hn⟩
  · simp [evFrame] at hj
  · exact Ev.noConfusion hn

theorem sinkWrite_not_mem_frameBlock {cfg : RunConfig} {k j : ℕ} {fd : FrameData}
    (hs : cfg.sinkOpen = false) : Ev.sinkWrite j ∉ frameBlock cfg k fd := by
  intro hmem
  simp only [frameBlock, hs, List.cons_append, List.nil_append, List.mem_cons] at hmem
  rcases hmem with h | h | h | h
  · exact Ev.noConfusion h
  · exact Ev.noConfusion h
  · exact Ev.noConfusion h
  · split at h
    · simp only [List.mem_append] at h
      rcases h with ((h | h) | h) | h
      · rcases reportEvents_shape h with h | ⟨d, _, h⟩ | h <;> exact Ev.noConfusion h
      · obtain ⟨d, _, h | h | h⟩ := drawEvents_shape h <;> exact Ev.noConfusion h
      · simp only [List.mem_singleton] at h
        exact Ev.noConfusion h
      · simp at h
    · simp only [List.mem_singleton] at h
      exact Ev.noConfusion h

theorem sinkWrite_not_mem_loopRun (cfg : RunConfig) (fc j : ℕ) (frames : List FrameData)
    (hs : cfg.sinkOpen = false) (hmem : Ev.sinkWrite j ∈ loopRun cfg fc frames) : False := by
  induction frames generalizing fc with
  | nil => simp [loopRun] at hmem
  | cons fd rest ih =>
    simp only [loopRun, List.mem_append] at hmem
    rcases hmem with h | h
    · exact sinkWrite_not_mem_frameBlock hs h
    · split at h
      · exact ih (fc + 1) h
      · simp at h

theorem mem_run_of_mem_frameBlock (cfg : RunConfig) (h : allSuccess cfg.frames) (k : ℕ)
    (fd : FrameData) (hk : cfg.frames[k - 1]? = some fd) (h1 : 1 ≤ k) {e : Ev}
    (he : e ∈ frameBlock cfg k fd) : e ∈ (run cfg).1 := by
  have hfil := filter_frame_run cfg h k fd hk h1
  rw [← hfil] at he
  exact List.mem_of_mem_filter he

/-- C7: the frame counter starts at 0 and the acquisition events of an
all-success run carry exactly the counter values 1,2,...,N in order; the
end-of-stream message reports N; and within each frame the acquisition is
the first event of that frame. -/
theorem c7_frame_counter (cfg : RunConfig) (h : allSuccess cfg.frames) :
    (run cfg).1.filterMap acquireIdx = List.range' 1 cfg.frames.length ∧
    Ev.endOfStream cfg.frames.length ∈ (run cfg).1 ∧
    ∀ k fd, cfg.frames[k - 1]? = some fd → 1 ≤ k →
      ((run cfg).1.filter (fun e => decide (evFrame e = some k))).head? =
        some (Ev.acquire k) := by
  refine ⟨filterMap_acquireIdx_run cfg h, endOfStream_mem_run cfg h, ?_⟩
  intro k fd hk h1
  rw [filter_frame_run cfg h k fd hk h1]
  rfl

/-- C7 witness: the theorem applied to the two-frame configuration `cfgA`. -/
theorem c7_frame_counter_witness :
    allSuccess cfgA.frames ∧
    ((run cfgA).1.filterMap acquireIdx = List.range' 1 cfgA.frames.length ∧
      Ev.endOfStream cfgA.frames.length ∈ (run cfgA).1 ∧
      ∀ k fd, cfgA.frames[k - 1]? = some fd → 1 ≤ k →
        ((run cfgA).1.filter (fun e => decide (evFrame e = some k))).head? =
          some (Ev.acquire k)) :=
  ⟨by decide, c7_frame_counter cfgA (by decide)⟩

/-- C3 counterexample: in the run of `cfgA`, coordinate mapping does occur,
yet a per-detection report line is emitted strictly before the first
Coordinate Mapper event — the code prints the report before mapping, so the
claimed order (Mapper before Reporter) is false. -/
theorem c3_counterexample :
    (run cfgA).1.any isMapEv = true ∧
    ((run cfgA).1.takeWhile (fun e => !isMapEv e)).any isReportDetEv = true := by
  exact ⟨by decide, by decide⟩

/-- C3 amended: per frame the stages run in the order Frame Source,
Preprocessor, Detector Adapter, then Reporter, then Coordinate Mapper with
Overlay Renderer, then FPS overlay and Output Sink — the Coordinate Mapper
runs after the inference call but after (not before) the Reporter's lines. -/
theorem c3_stage_order (cfg : RunConfig) (h : allSuccess cfg.frames) (k : ℕ)
    (fd : FrameData) (hk : cfg.frames[k - 1]? = some fd) (h1 : 1 ≤ k) :
    (run cfg).1.filter (fun e => decide (evFrame e = some k)) =
      [Ev.acquire k, Ev.preprocess k, Ev.infer k] ++
        reportEvents cfg.names k fd.dets ++ drawEvents cfg k fd.dets ++
        [Ev.fpsOverlay k] ++ (if cfg.sinkOpen then [Ev.sinkWrite k] else []) := by
  rw [filter_frame_run cfg h k fd hk h1]
  have h0 : fd.inferRet = 0 := h fd (mem_of_getElem?_eq hk)
  simp [frameBlock, h0, List.append_assoc]

/-- C3 amended, witness: the order equation applied to frame 1 of `cfgA`. -/
theorem c3_stage_order_witness :
    (allSuccess cfgA.frames ∧
      cfgA.frames[1 - 1]? = some ⟨0, [⟨0, ⟨100, 100, 200, 200⟩, 1⟩]⟩ ∧ (1 : ℕ) ≤ 1) ∧
    (run cfgA).1.filter (fun e => decide (evFrame e = some 1)) =
      [Ev.acquire 1, Ev.preprocess 1, Ev.infer 1] ++
        reportEvents cfgA.names 1 [⟨0, ⟨100, 100, 200, 200⟩, 1⟩] ++
        drawEvents cfgA 1 [⟨0, ⟨100, 100, 200, 200⟩, 1⟩] ++
        [Ev.fpsOverlay 1] ++ (if cfgA.sinkOpen then [Ev.sinkWrite 1] else []) :=
  ⟨⟨by decide, by decide, by decide⟩,
    c3_stage_order cfgA (by decide) 1 ⟨0, [⟨0, ⟨100, 100, 200, 200⟩, 1⟩]⟩ (by decide)
      (by decide)⟩

/-- C4: when the Output Sink fails to open, exactly one warning appears in
the trace, every frame is still acquired, preprocessed, inferred and
reported, no sink write ever happens, and a normal end-of-stream run exits
with the success code. -/
theorem c4_sink_unavailable (cfg : RunConfig) (hs : cfg.sinkOpen = false)
    (h : allSuccess cfg.frames) :
    (run cfg).1.count Ev.warnNoSink = 1 ∧
    (∀ k fd, cfg.frames[k - 1]? = some fd → 1 ≤ k →
      Ev.acquire k ∈ (run cfg).1 ∧ Ev.preprocess k ∈ (run cfg).1 ∧
        Ev.infer k ∈ (run cfg).1 ∧ Ev.reportHeader k fd.dets.length ∈ (run cfg).1) ∧
    (∀ j, Ev.sinkWrite j ∉ (run cfg).1) ∧
    Ev.endOfStream cfg.frames.length ∈ (run cfg).1 ∧
    (run cfg).2 = 0 := by
  refine ⟨?_, ?_, ?_, endOfStream_mem_run cfg h, rfl⟩
  · have htr : (run cfg).1 = [Ev.warnNoSink] ++ loopRun cfg 0 cfg.frames ++
        [Ev.releaseModel, Ev.releasePost, Ev.releaseCap] := by
      simp [run, hs]
    have hwl : Ev.warnNoSink ∉ loopRun cfg 0 cfg.frames :=
      warnNoSink_not_mem_loopRun cfg 0 cfg.frames
    rw [htr, List.count_append, List.count_append, List.count_eq_zero.mpr hwl]
    decide
  · intro k fd hk h1
    have h0 : fd.inferRet = 0 := h fd (mem_of_getElem?_eq hk)
    refine ⟨mem_run_of_mem_frameBlock cfg h k fd hk h1 ?_,
      mem_run_of_mem_frameBlock cfg h k fd hk h1 ?_,
      mem_run_of_mem_frameBlock cfg h k fd hk h1 ?_,
      mem_run_of_mem_frameBlock cfg h k fd hk h1 ?_⟩
    · simp [frameBlock]
    · simp [frameBlock]
    · simp [frameBlock]
    · simp [frameBlock, h0, reportEvents]
  · intro j hmem
    have htr : (run cfg).1 = [Ev.warnNoSink] ++ loopRun cfg 0 cfg.frames ++
        [Ev.releaseModel, Ev.releasePost, Ev.releaseCap] := by
      simp [run, hs]
    rw [htr] at hmem
    simp at hmem
    exact sinkWrite_not_mem_loopRun cfg 0 j cfg.frames hs hmem

/-- C4 witness: the theorem applied to the sink-closed configuration
`cfgNoSink`. -/
theorem c4_sink_unavailable_witness :
    (cfgNoSink.sinkOpen = false ∧ allSuccess cfgNoSink.frames) ∧
    ((run cfgNoSink).1.count Ev.warnNoSink = 1 ∧
      (∀ k fd, cfgNoSink.frames[k - 1]? = some fd → 1 ≤ k →
        Ev.acquire k ∈ (run cfgNoSink).1 ∧ Ev.preprocess k ∈ (run cfgNoSink).1 ∧
          Ev.infer k ∈ (run cfgNoSink).1 ∧
          Ev.reportHeader k fd.dets.length ∈ (run cfgNoSink).1) ∧
      (∀ j, Ev.sinkWrite j ∉ (run cfgNoSink).1) ∧
      Ev.endOfStream cfgNoSink.frames.length ∈ (run cfgNoSink).1 ∧
      (run cfgNoSink).2 = 0) :=
  ⟨⟨rfl, by decide⟩, c4_sink_unavailable cfgNoSink rfl (by decide)⟩

/-- C5: a frame with an empty detection list produces exactly one
"no objects detected" line and zero overlay rectangles, the run continues to
normal end-of-stream, and the exit code is the success code. -/
theorem c5_empty_frame (cfg : RunConfig) (h : allSuccess cfg.frames) (k : ℕ)
    (fd : FrameData) (hk : cfg.frames[k - 1]? = some fd) (h1 : 1 ≤ k)
    (hempty : fd.dets = []) :
    ((run cfg).1.filter (fun e => decide (evFrame e = some k))).countP isReportNoneEv = 1 ∧
    ((run cfg).1.filter (fun e => decide (evFrame e = some k))).countP isDrawRectEv = 0 ∧
    Ev.endOfStream cfg.frames.length ∈ (run cfg).1 ∧
    (run cfg).2 = 0 := by
  have h0 : fd.inferRet = 0 := h fd (mem_of_getElem?_eq hk)
  have hfil := filter_frame_run cfg h k fd hk h1
  rw [hfil]
  refine ⟨?_, ?_, endOfStream_mem_run cfg h, rfl⟩ <;>
    cases hs : cfg.sinkOpen <;>
      simp [frameBlock, h0, hempty, reportEvents, drawEvents, hs, List.countP_cons,
        List.countP_append, isReportNoneEv, isDrawRectEv]

/-- C5 witness: the theorem applied to frame 2 of `cfgA`, whose detection
list is empty. -/
theorem c5_empty_frame_witness :
    (allSuccess cfgA.frames ∧ cfgA.frames[2 - 1]? = some ⟨0, []⟩ ∧ (1 : ℕ) ≤ 2 ∧
      (FrameData.mk 0 []).dets = ([] : List Detection)) ∧
    (((run cfgA).1.filter (fun e => decide (evFrame e = some 2))).countP isReportNoneEv = 1 ∧
      ((run cfgA).1.filter (fun e => decide (evFrame e = some 2))).countP isDrawRectEv = 0 ∧
      Ev.endOfStream cfgA.frames.length ∈ (run cfgA).1 ∧
      (run cfgA).2 = 0) :=
  ⟨⟨by decide, by decide, by decide, rfl⟩,
    c5_empty_frame cfgA (by decide) 2 ⟨0, []⟩ (by decide) (by decide) rfl⟩

/-- C6: for a non-empty detection list, the Reporter emits the header and
then exactly one line per detection in detection-list order, each line
carrying the looked-up class name, the unscaled model-space box edges, and
the confidence rounded to three decimals. -/
theorem c6_report_lines (names : ℤ → String) (k : ℕ) (dets : List Detection)
    (hne : dets ≠ []) :
    reportEvents names k dets =
      Ev.reportHeader k dets.length ::
        dets.map (fun d => Ev.reportDet k (reportLine names d)) ∧
    ∀ d : Detection, reportLine names d =
      ⟨names d.cls, d.box.left, d.box.top, d.box.right, d.box.bottom, fmt3 d.prop⟩ := by
  constructor
  · rw [reportEvents, if_neg (fun hh => hne (List.length_eq_zero.mp hh)), List.append_nil]
  · intro d
    rfl

/-- C6 witness: the theorem applied to a one-detection list. -/
theorem c6_report_lines_witness :
    (([⟨0, ⟨10, 20, 30, 40⟩, 1⟩] : List Detection) ≠ []) ∧
    (reportEvents (fun _ => "person") 5 [⟨0, ⟨10, 20, 30, 40⟩, 1⟩] =
      Ev.reportHeader 5 ([⟨0, ⟨10, 20, 30, 40⟩, (1 : ℚ)⟩] : List Detection).length ::
        ([⟨0, ⟨10, 20, 30, 40⟩, (1 : ℚ)⟩] : List Detection).map
          (fun d => Ev.reportDet 5 (reportLine (fun _ => "person") d)) ∧
      ∀ d : Detection, reportLine (fun _ => "person") d =
        ⟨(fun (_ : ℤ) => "person") d.cls, d.box.left, d.box.top, d.box.right,
          d.box.bottom, fmt3 d.prop⟩) :=
  ⟨by decide, c6_report_lines (fun _ => "person") 5 [⟨0, ⟨10, 20, 30, 40⟩, 1⟩] (by decide)⟩

/-- C1 counterexample: in `cfgFail` the inference of frame 1 fails
(`ret = -1`, witnessed by the failure event in the trace), yet `main`
returns 0 — the exit code is the success code, refuting the claimed
non-zero exit. -/
theorem c1_counterexample :
    Ev.inferFail 1 (-1) ∈ (run cfgFail).1 ∧ (run cfgFail).2 = 0 := by
  exact ⟨by decide, rfl⟩

/-- C1 amended: if inference fails on frame K, no event of any later frame
occurs, the failure is recorded, all resources (model context, post-process
tables, capture, and sink if open) are still released — but the process
exits with code 0, not a non-zero code. -/
theorem c1_fatal_cleanup (cfg : RunConfig) (K : ℕ) (fd : FrameData) (h1 : 1 ≤ K)
    (h2 : cfg.frames[K - 1]? = some fd)
    (h3 : ∀ g ∈ cfg.frames.take (K - 1), g.inferRet = 0) (h4 : fd.inferRet ≠ 0) :
    (∀ e ∈ (run cfg).1, ∀ j, evFrame e = some j → j ≤ K) ∧
    Ev.inferFail K fd.inferRet ∈ (run cfg).1 ∧
    Ev.releaseModel ∈ (run cfg).1 ∧ Ev.releasePost ∈ (run cfg).1 ∧
    Ev.releaseCap ∈ (run cfg).1 ∧
    (cfg.sinkOpen = true → Ev.closeSink ∈ (run cfg).1) ∧
    (run cfg).2 = 0 := by
  obtain ⟨hlt, hget⟩ := List.getElem?_eq_some.mp h2
  have htake : (cfg.frames.take (K - 1)).length = K - 1 := by
    rw [List.length_take]
    omega
  have hK : K - 1 + 1 = K := by omega
  have hdecomp : cfg.frames = cfg.frames.take (K - 1) ++ fd :: cfg.frames.drop K := by
    conv_lhs => rw [← List.take_append_drop (K - 1) cfg.frames]
    rw [List.drop_eq_getElem_cons hlt, hget, hK]
  have hcut : loopRun cfg 0 cfg.frames =
      loopRun cfg 0 (cfg.frames.take (K - 1) ++ [fd]) := by
    conv_lhs => rw [hdecomp]
    exact loopRun_cut cfg 0 _ fd _ h3 h4
  have hbound : ∀ e ∈ loopRun cfg 0 cfg.frames, ∀ j, evFrame e = some j → j ≤ K := by
    intro e he j hj
    rw [hcut] at he
    have hb := evFrame_bound_of_mem_loopRun he hj
    rw [List.length_append, htake] at hb
    simp only [List.length_singleton] at hb
    omega
  have hfailmem : Ev.inferFail K fd.inferRet ∈ loopRun cfg 0 cfg.frames := by
    have hm := inferFail_mem_loopRun cfg 0 (cfg.frames.take (K - 1)) fd h3 h4
    rw [htake, Nat.zero_add, hK] at hm
    rw [hcut]
    exact hm
  refine ⟨?_, ?_, ?_, ?_, ?_, ?_, rfl⟩
  · intro e he j hj
    simp only [run, List.mem_append] at he
    rcases he with (he | he) | he | he
    · split at he <;> simp only [List.mem_singleton] at he <;> subst he <;>
        simp [evFrame] at hj
    · exact hbound e he j hj
    · split at he
      · simp only [List.mem_singleton] at he
        subst he
        simp [evFrame] at hj
      · simp at he
    · simp only [List.mem_cons, List.mem_singleton] at he
      rcases he with he | he | he
      · subst he
        simp [evFrame] at hj
      · subst he
        simp [evFrame] at hj
      · rcases he with he | he
        · subst he
          simp [evFrame] at hj
        · simp at he
  · exact List.mem_append.mpr (Or.inl (List.mem_append.mpr (Or.inr hfailmem)))
  · cases hs : cfg.sinkOpen <;> simp [run, hs]
  · cases hs : cfg.sinkOpen <;> simp [run, hs]
  · cases hs : cfg.sinkOpen <;> simp [run, hs]
  · intro hs
    simp [run, hs]

/-- C1 amended, witness: the theorem applied to the single-failing-frame
configuration `cfgFail` at K = 1. -/
theorem c1_fatal_cleanup_witness :
    ((1 : ℕ) ≤ 1 ∧ cfgFail.frames[1 - 1]? = some ⟨-1, []⟩ ∧
      (∀ g ∈ cfgFail.frames.take (1 - 1), g.inferRet = 0) ∧ (-1 : ℤ) ≠ 0) ∧
    ((∀ e ∈ (run cfgFail).1, ∀ j, evFrame e = some j → j ≤ 1) ∧
      Ev.inferFail 1 (-1) ∈ (run cfgFail).1 ∧
      Ev.releaseModel ∈ (run cfgFail).1 ∧ Ev.releasePost ∈ (run cfgFail).1 ∧
      Ev.releaseCap ∈ (run cfgFail).1 ∧
      (cfgFail.sinkOpen = true → Ev.closeSink ∈ (run cfgFail).1) ∧
      (run cfgFail).2 = 0) :=
  ⟨⟨by decide, by decide, by decide, by decide⟩,
    c1_fatal_cleanup cfgFail 1 ⟨-1, []⟩ (by decide) (by decide) (by decide) (by decide)⟩
